import Mathlib

/-! # override_assert.c : a shallow embedding

The program replaces the failed-assertion handler by `custom_assert_func`, which
prints a compiler-style diagnostic and a prompt on standard output, reads one
character from standard input and then aborts, raises `SIGTRAP`, or returns.
The example call site `arithprog` sums the integers `0, 1, ..., to - 1` in a
32-bit `int`.

The embedding passes the state of the process explicitly:

* `World` holds what has been written to standard output, what is still unread
  on standard input, the number of `SIGTRAP` signals raised, and a flag that
  records whether a signed `int` overflow has happened;
* `Outcome` says how a call ends: it returns to its caller, the process is
  ended by `abort()`, or the process is ended by a signal;
* `int` arithmetic is done on `Int` and reduced into the 32-bit range with
  `wrap32`, and every overflowing operation sets the overflow flag of the world.
-/

namespace OverrideAssert

/-! ## Machine integers -/

/-- The value `INT_MIN` of a 32-bit `int`. -/
def INT_MIN : Int := -2147483648

/-- The value `INT_MAX` of a 32-bit `int`. -/
def INT_MAX : Int := 2147483647

/-- Whether a mathematical integer is representable in a 32-bit `int`. -/
def inInt (x : Int) : Bool := decide (INT_MIN ≤ x) && decide (x ≤ INT_MAX)

/-- Reduction of a mathematical integer into the range of a 32-bit `int`
(two's complement): the result is congruent to `x` modulo `2^32`. -/
def wrap32 (x : Int) : Int := (x + 2147483648) % 4294967296 - 2147483648

/-! ## C strings, standard streams and the state of the process -/

/-- A C string (`const char*`): the characters before the terminating NUL. -/
abbrev CString := List Char

/-- One byte of standard input, as `getchar` delivers it (an `unsigned char`). -/
abbrev Byte := Fin 256

/-- The observable state of the process. -/
structure World where
  /-- Everything written to standard output so far, oldest first. -/
  out : CString
  /-- The bytes of standard input that have not been read yet. -/
  inp : List Byte
  /-- How many times `raise(SIGTRAP)` has been called. -/
  traps : Nat
  /-- Whether a signed `int` operation has overflowed. ISO C leaves the
  behaviour undefined from that point on; the values the embedding computes
  afterwards are those of two's complement wraparound. -/
  overflow : Bool
  deriving DecidableEq, Repr

/-- What the surroundings of the process do when `SIGTRAP` is raised. -/
structure Env where
  /-- `true`: a debugger intercepts the signal and lets the program go on, so
  `raise` returns. `false`: the default disposition of the signal applies and
  the process is ended. -/
  trapResumes : Bool
  deriving DecidableEq, Repr

/-- How a call ends. -/
inductive Outcome (α : Type) where
  /-- The call returns `val` to its caller, in world `w`. -/
  | returned (val : α) (w : World)
  /-- The process was ended by `abort()` in world `w`. -/
  | aborted (w : World)
  /-- The process was ended by the signal `SIGTRAP` in world `w`. -/
  | killed (w : World)
  /-- The step budget of a loop ran out (shown below never to happen). -/
  | outOfFuel (w : World)
  deriving DecidableEq, Repr

namespace Outcome

/-- The world in which the call ended. -/
def world {α : Type} : Outcome α → World
  | returned _ w => w
  | aborted w => w
  | killed w => w
  | outOfFuel w => w

/-- Whether the call returned to its caller. -/
def isReturned {α : Type} : Outcome α → Bool
  | returned _ _ => true
  | _ => false

/-- Whether the process was ended by `abort()`. -/
def isAborted {α : Type} : Outcome α → Bool
  | aborted _ => true
  | _ => false

/-- Sequencing: the rest of the program runs only when the call returned. -/
def bind {α β : Type} (o : Outcome α) (k : α → World → Outcome β) : Outcome β :=
  match o with
  | returned a w => k a w
  | aborted w => aborted w
  | killed w => killed w
  | outOfFuel w => outOfFuel w

end Outcome

/-! ## The parts of the C library the program calls -/

/-- An argument of a `printf`-family call, with its C type. -/
inductive Arg where
  /-- A `const char*` argument. -/
  | str (s : CString)
  /-- An `int` argument. -/
  | int (n : Int)
  /-- An `unsigned int` argument. -/
  | uint (n : Nat)
  deriving DecidableEq, Repr

/-- The decimal digits of an `int`, with a leading `-` when it is negative. -/
def decimal (n : Int) : CString := (Int.repr n).toList

/-- The text a `printf`-family call produces for a format and its arguments.
`%s` copies a string argument. `%d` prints its argument as an `int`: an
`unsigned int` argument is read back as the `int` with the same 32 bits.
Every other character of the format is copied. -/
def format : List Char → List Arg → CString
  | [], _ => []
  | '%' :: 's' :: fmt, Arg.str s :: args => s ++ format fmt args
  | '%' :: 'd' :: fmt, Arg.int n :: args => decimal n ++ format fmt args
  | '%' :: 'd' :: fmt, Arg.uint n :: args => decimal (wrap32 n) ++ format fmt args
  | c :: fmt, args => c :: format fmt args

/-- The call `fprintf(stdout, fmt, args...)`, also `printf(fmt, args...)`. -/
def fprintf_stdout (fmt : String) (args : List Arg) (w : World) : World :=
  { w with out := w.out ++ format fmt.toList args }

/-- The value `EOF`. -/
def EOF : Int := -1

/-- The call `getchar()`: the next byte of standard input as a non-negative
`int`, and that byte is consumed; `EOF` when no byte is left. -/
def getchar (w : World) : Int × World :=
  match w.inp with
  | [] => (EOF, w)
  | c :: rest => ((c.val : Int), { w with inp := rest })

/-- The call `toupper(c)` in the "C" locale, which is the locale of a program
that never calls `setlocale`: a lower-case letter is mapped to its upper-case
letter and every other value, `EOF` included, is returned unchanged. -/
def toupper (c : Int) : Int :=
  if ('a'.toNat : Int) ≤ c ∧ c ≤ ('z'.toNat : Int) then c - ('a'.toNat : Int) + ('A'.toNat : Int) else c

/-- The call `abort()`: the process ends abnormally. -/
def abort {α : Type} (w : World) : Outcome α := Outcome.aborted w

/-- The call `raise(SIGTRAP)`. -/
def raise_SIGTRAP (env : Env) (w : World) : Outcome Unit :=
  let w1 := { w with traps := w.traps + 1 }
  if env.trapResumes then Outcome.returned () w1 else Outcome.killed w1

/-! ## The program -/

/-- The function `custom_assert_func` (lines 57-72). -/
def custom_assert_func (env : Env) (expr filename : CString) (line : Nat)
    (assert_func : CString) (w : World) : Outcome Unit :=
  let w1 := fprintf_stdout "%s:%d:4: error: assertion \"%s\" failed in function \"%s\".\n"
    [Arg.str filename, Arg.uint line, Arg.str expr, Arg.str assert_func] w
  let w2 := fprintf_stdout "(A)bort, (B)reak, (C)ontinue: " [] w1
  let r := getchar w2
  let c := toupper r.1
  if c = ('A'.toNat : Int) then abort r.2
  else if c = ('B'.toNat : Int) then raise_SIGTRAP env r.2
  else Outcome.returned () r.2

/-- The macro `assert(expr)` (lines 74-78), with the value `cond` of the
checked expression and what the preprocessor captures at the place of use:
the text of the expression, `__FILE__`, `__LINE__` and `__ASSERT_FUNCTION`. -/
def assert (env : Env) (cond : Bool) (expr filename : CString) (line : Nat)
    (assert_func : CString) (w : World) : Outcome Unit :=
  if cond then Outcome.returned () w
  else custom_assert_func env expr filename line assert_func w

/-- The variables of the loop of `arithprog`, with a count of the executions of
the loop body. -/
structure LoopState where
  /-- The loop counter `i`. -/
  i : Int
  /-- The accumulator `sum`. -/
  sum : Int
  /-- How many times the loop body has run. -/
  iters : Nat
  /-- Whether `sum += i` or `++i` has overflowed. -/
  overflow : Bool
  deriving DecidableEq, Repr

/-- The loop `for (int i = 0; i != to; ++i) sum += i;` (lines 88-89) from the
state `s`, with a budget of `fuel` evaluations of the loop condition: the final
state, or `none` when the budget runs out. -/
def arithprog_loop (to_ : Int) : Nat → LoopState → Option LoopState
  | 0, _ => none
  | fuel + 1, s =>
    if s.i ≠ to_ then
      arithprog_loop to_ fuel
        { i := wrap32 (s.i + 1)
          sum := wrap32 (s.sum + s.i)
          iters := s.iters + 1
          overflow := s.overflow || !inInt (s.sum + s.i) || !inInt (s.i + 1) }
    else some s

/-- A budget that is enough for every bound: the counter `i` takes at most
`2^32` values before it meets `to`. -/
def loopFuel : Nat := 4294967296

/-- The text of the expression checked in `arithprog`, as `#expr` renders it. -/
def arithprog_expr : CString := "to >= 0 && \"Only positive numbers are allowed\"".toList

/-- The function `arithprog` (lines 83-92). The checked expression
`to >= 0 && "..."` has the value of `to >= 0`, a string literal being a
non-null pointer. `to_` is the parameter `to` and `file` the value of
`__FILE__`. -/
def arithprog (env : Env) (file : CString) (to_ : Int) (w : World) : Outcome Int :=
  (assert env (decide (to_ ≥ 0)) arithprog_expr file 85 "arithprog".toList w).bind fun _ w1 =>
    match arithprog_loop to_ loopFuel { i := 0, sum := 0, iters := 0, overflow := false } with
    | some s => Outcome.returned s.sum { w1 with overflow := w1.overflow || s.overflow }
    | none => Outcome.outOfFuel w1

/-- The value `EXIT_SUCCESS`. -/
def EXIT_SUCCESS : Int := 0

/-- The function `main` (lines 94-99). Each call of `arithprog` is evaluated
before the `printf` that prints its result. -/
def main (env : Env) (file : CString) (w : World) : Outcome Int :=
  (arithprog env file 10 w).bind fun r1 w1 =>
    let w2 := fprintf_stdout "arithprog(10) = %d\n" [Arg.int r1] w1
    (arithprog env file (-4) w2).bind fun r2 w3 =>
      let w4 := fprintf_stdout "arithprog(-4) = %d\n" [Arg.int r2] w3
      Outcome.returned EXIT_SUCCESS w4

/-- The world at the start of the process: nothing written, `input` unread. -/
def World.initial (input : List Byte) : World :=
  { out := [], inp := input, traps := 0, overflow := false }

/-! ## Definitions used to state the results -/

/-- The sum `0 + 1 + ... + (n - 1)` in closed form. -/
def tri (n : Nat) : Nat := n * (n - 1) / 2

/-- The state of the loop of `arithprog` at its start. -/
def loopInit : LoopState := { i := 0, sum := 0, iters := 0, overflow := false }

/-- The state of the loop of `arithprog` after `j` executions of its body, in
closed form: the first operation that overflows is `sum += i` in the execution
number `65537`. -/
def loopStateAt (j : Nat) : LoopState :=
  { i := wrap32 j, sum := wrap32 (tri j), iters := j, overflow := decide (65537 ≤ j) }

/-- The text one call of `custom_assert_func` writes: the diagnostic line and
the prompt, as the two `fprintf` calls produce them. -/
def emitted (expr filename : CString) (line : Nat) (assert_func : CString) : CString :=
  format "%s:%d:4: error: assertion \"%s\" failed in function \"%s\".\n".toList
      [Arg.str filename, Arg.uint line, Arg.str expr, Arg.str assert_func]
    ++ format "(A)bort, (B)reak, (C)ontinue: ".toList []

/-- The world right after the interceptor has written its text and read the
byte in front of `rest`. -/
def afterPrompt (expr filename : CString) (line : Nat) (assert_func : CString)
    (w : World) (rest : List Byte) : World :=
  { out := w.out ++ emitted expr filename line assert_func
    inp := rest, traps := w.traps, overflow := w.overflow }

/-! ## Machine integers: lemmas -/

theorem wrap32_natCast_of_le (n : Nat) (h : n ≤ 2147483647) : wrap32 (n : Int) = (n : Int) := by
  unfold wrap32
  omega

theorem wrap32_add_wrap32 (a b : Int) : wrap32 (wrap32 a + wrap32 b) = wrap32 (a + b) := by
  unfold wrap32
  omega

theorem wrap32_succ (a : Int) : wrap32 (wrap32 a + 1) = wrap32 (a + 1) := by
  unfold wrap32
  omega

theorem wrap32_natCast_inj (a b : Nat) (ha : a < 4294967296) (hb : b < 4294967296)
    (h : wrap32 (a : Int) = wrap32 (b : Int)) : a = b := by
  unfold wrap32 at h
  omega

theorem tri_succ (n : Nat) : tri (n + 1) = tri n + n := by
  unfold tri
  cases n with
  | zero => rfl
  | succ m =>
    have h : (m + 1 + 1) * (m + 1 + 1 - 1) = (m + 1) * (m + 1 - 1) + (m + 1) * 2 := by
      simp only [Nat.add_sub_cancel]
      ring
    rw [h, Nat.add_mul_div_right _ _ (by decide : 0 < 2)]

theorem tri_eq_sum (n : Nat) : tri n = ∑ i in Finset.range n, i := by
  induction n with
  | zero => rfl
  | succ m ih => rw [tri_succ, Finset.sum_range_succ, ih]

theorem tri_mono {a b : Nat} (h : a ≤ b) : tri a ≤ tri b := by
  rw [tri_eq_sum, tri_eq_sum]
  exact Finset.sum_le_sum_of_subset (Finset.range_mono h)

/-! ## The loop of `arithprog` -/

theorem tri_65536 : tri 65536 = 2147450880 := by norm_num [tri]

/-- One execution of the loop body takes the closed form at `j` to the closed
form at `j + 1`. -/
theorem loopStateAt_step (j : Nat) :
    ({ i := wrap32 ((loopStateAt j).i + 1)
       sum := wrap32 ((loopStateAt j).sum + (loopStateAt j).i)
       iters := (loopStateAt j).iters + 1
       overflow := (loopStateAt j).overflow || !inInt ((loopStateAt j).sum + (loopStateAt j).i)
         || !inInt ((loopStateAt j).i + 1) } : LoopState) = loopStateAt (j + 1) := by
  have hi : wrap32 (wrap32 (j : Int) + 1) = wrap32 ((j + 1 : Nat) : Int) := by
    rw [wrap32_succ, Nat.cast_add, Nat.cast_one]
  have hs : wrap32 (wrap32 (tri j : Int) + wrap32 (j : Int)) = wrap32 ((tri (j + 1) : Nat) : Int) := by
    rw [wrap32_add_wrap32, tri_succ, Nat.cast_add]
  have ho : (decide (65537 ≤ j) || !inInt (wrap32 (tri j : Int) + wrap32 (j : Int))
      || !inInt (wrap32 (j : Int) + 1)) = decide (65537 ≤ j + 1) := by
    rcases Nat.lt_or_ge j 65536 with hlt | hge
    · have h1 : tri (j + 1) ≤ 2147450880 := tri_65536 ▸ tri_mono (Nat.succ_le_of_lt hlt)
      rw [tri_succ] at h1
      have h2 : wrap32 (tri j : Int) = (tri j : Int) := wrap32_natCast_of_le _ (by omega)
      have h3 : wrap32 (j : Int) = (j : Int) := wrap32_natCast_of_le _ (by omega)
      have h4 : inInt ((tri j : Int) + (j : Int)) = true := by
        simp only [inInt, INT_MIN, INT_MAX, Bool.and_eq_true, decide_eq_true_eq]; omega
      have h5 : inInt ((j : Int) + 1) = true := by
        simp only [inInt, INT_MIN, INT_MAX, Bool.and_eq_true, decide_eq_true_eq]; omega
      have h6 : decide (65537 ≤ j) = false := by simp; omega
      have h7 : decide (65537 ≤ j + 1) = false := by simp; omega
      rw [h2, h3, h4, h5, h6, h7]; rfl
    · rcases Nat.eq_or_lt_of_le hge with heq | hgt
      · subst heq
        rw [tri_65536]
        decide
      · have h6 : decide (65537 ≤ j) = true := by simp; omega
        have h7 : decide (65537 ≤ j + 1) = true := by simp; omega
        rw [h6, h7]; rfl
  simp only [loopStateAt]
  rw [hi, hs, ho]

/-- From the closed form at `j`, with `d` more executions of the body to go
before the counter meets the bound, the loop ends in the closed form at
`j + d`, whatever budget above `d` it is given. -/
theorem arithprog_loop_from (to_ : Int) (N : Nat) (hN : N < 4294967296)
    (hto : wrap32 (N : Int) = to_) :
    ∀ (d j fuel : Nat), j + d = N → d < fuel →
      arithprog_loop to_ fuel (loopStateAt j) = some (loopStateAt N) := by
  intro d
  induction d with
  | zero =>
    intro j fuel hj hf
    obtain ⟨f, rfl⟩ : ∃ f, fuel = f + 1 := ⟨fuel - 1, by omega⟩
    have hjN : j = N := by omega
    subst hjN
    have : (loopStateAt j).i = to_ := hto
    simp [arithprog_loop, this]
  | succ d ih =>
    intro j fuel hj hf
    obtain ⟨f, rfl⟩ : ∃ f, fuel = f + 1 := ⟨fuel - 1, by omega⟩
    have hne : (loopStateAt j).i ≠ to_ := by
      intro h
      have h2 : wrap32 (j : Int) = wrap32 (N : Int) := by rw [hto]; exact h
      have := wrap32_natCast_inj j N (by omega) hN h2
      omega
    rw [arithprog_loop, if_pos hne, loopStateAt_step]
    exact ih (j + 1) f (by omega) (by omega)

theorem loopStateAt_zero : loopStateAt 0 = loopInit := by decide

/-- The loop of `arithprog` ends within its budget for every `int` bound, and
its final state is the closed form at the number `N` of the bound modulo
`2^32`. -/
theorem arithprog_loop_closed (to_ : Int) (N : Nat) (hN : N < 4294967296)
    (hto : wrap32 (N : Int) = to_) :
    arithprog_loop to_ loopFuel loopInit = some (loopStateAt N) := by
  rw [← loopStateAt_zero]
  exact arithprog_loop_from to_ N hN hto N 0 loopFuel (by omega) (by unfold loopFuel; omega)

/-! ## The interceptor: lemmas -/

theorem toupper_eq_A_iff (c : Byte) :
    toupper (c.val : Int) = ('A'.toNat : Int) ↔ (c.val = 'A'.toNat ∨ c.val = 'a'.toNat) := by
  have hA : 'A'.toNat = 65 := rfl
  have ha : 'a'.toNat = 97 := rfl
  have hz : 'z'.toNat = 122 := rfl
  unfold toupper
  rw [hA, ha, hz]
  split <;> omega

theorem toupper_eq_B_iff (c : Byte) :
    toupper (c.val : Int) = ('B'.toNat : Int) ↔ (c.val = 'B'.toNat ∨ c.val = 'b'.toNat) := by
  have hA : 'A'.toNat = 65 := rfl
  have hB : 'B'.toNat = 66 := rfl
  have ha : 'a'.toNat = 97 := rfl
  have hb : 'b'.toNat = 98 := rfl
  have hz : 'z'.toNat = 122 := rfl
  unfold toupper
  rw [hA, hB, ha, hb, hz]
  split <;> omega

/-- The interceptor on an input that starts with the byte `c`. -/
theorem custom_assert_func_cons (env : Env) (expr filename : CString) (line : Nat)
    (assert_func : CString) (w : World) (c : Byte) (rest : List Byte) :
    custom_assert_func env expr filename line assert_func { w with inp := c :: rest } =
      if toupper (c.val : Int) = ('A'.toNat : Int) then
        Outcome.aborted (afterPrompt expr filename line assert_func w rest)
      else if toupper (c.val : Int) = ('B'.toNat : Int) then
        raise_SIGTRAP env (afterPrompt expr filename line assert_func w rest)
      else Outcome.returned () (afterPrompt expr filename line assert_func w rest) := by
  simp only [custom_assert_func, fprintf_stdout, getchar, abort, afterPrompt, emitted,
    List.append_assoc]

/-- The interceptor at the end of standard input. -/
theorem custom_assert_func_nil (env : Env) (expr filename : CString) (line : Nat)
    (assert_func : CString) (w : World) :
    custom_assert_func env expr filename line assert_func { w with inp := [] } =
      Outcome.returned () (afterPrompt expr filename line assert_func w []) := by
  simp only [custom_assert_func, fprintf_stdout, getchar, abort, afterPrompt, emitted,
    List.append_assoc]
  rw [if_neg (by decide), if_neg (by decide)]

/-- Whatever the input and the surroundings, the interceptor appends the text
`emitted` to standard output and writes nothing else. -/
theorem custom_assert_func_out (env : Env) (expr filename : CString) (line : Nat)
    (assert_func : CString) (w : World) :
    (custom_assert_func env expr filename line assert_func w).world.out =
      w.out ++ emitted expr filename line assert_func := by
  obtain ⟨out, inp, traps, overflow⟩ := w
  cases inp with
  | nil =>
    have h := custom_assert_func_nil env expr filename line assert_func ⟨out, [], traps, overflow⟩
    simp only at h
    rw [h]; rfl
  | cons c rest =>
    have h := custom_assert_func_cons env expr filename line assert_func
      ⟨out, [], traps, overflow⟩ c rest
    simp only at h
    rw [h]
    unfold raise_SIGTRAP
    split
    · rfl
    · split
      · split <;> rfl
      · rfl

theorem format_str (fmt : List Char) (s : CString) (args : List Arg) :
    format ('%' :: 's' :: fmt) (Arg.str s :: args) = s ++ format fmt args := by
  simp [format]

theorem format_uint (fmt : List Char) (n : Nat) (args : List Arg) :
    format ('%' :: 'd' :: fmt) (Arg.uint n :: args) = decimal (wrap32 n) ++ format fmt args := by
  simp [format]

theorem format_int (fmt : List Char) (n : Int) (args : List Arg) :
    format ('%' :: 'd' :: fmt) (Arg.int n :: args) = decimal n ++ format fmt args := by
  simp [format]

theorem format_lit (c : Char) (fmt : List Char) (args : List Arg) (h : c ≠ '%') :
    format (c :: fmt) args = c :: format fmt args := by
  rw [format] <;> intro _ _ _ h1 <;> simp at h1 <;> exact absurd h1 h

theorem format_nil (args : List Arg) : format [] args = [] := by
  simp [format]

theorem format_lits (pre : List Char) (h : ∀ c ∈ pre, c ≠ '%') (fmt : List Char)
    (args : List Arg) : format (pre ++ fmt) args = pre ++ format fmt args := by
  induction pre with
  | nil => rfl
  | cons c pre ih =>
    have hc : c ≠ '%' := h c (List.mem_cons_self c pre)
    have hp : ∀ d ∈ pre, d ≠ '%' := fun d hd => h d (List.mem_cons_of_mem c hd)
    rw [List.cons_append, format_lit c _ _ hc, ih hp, List.cons_append]

theorem diagnostic_format_split :
    "%s:%d:4: error: assertion \"%s\" failed in function \"%s\".\n".toList =
      '%' :: 's' :: (":".toList ++ '%' :: 'd' :: (":4: error: assertion \"".toList ++
        '%' :: 's' :: ("\" failed in function \"".toList ++ '%' :: 's' :: ("\".\n".toList ++ [])))) := by
  decide

/-- The text the interceptor writes, spelled out. -/
theorem emitted_eq (expr filename : CString) (line : Nat) (assert_func : CString) :
    emitted expr filename line assert_func =
      filename ++ ":".toList ++ decimal (wrap32 (line : Int)) ++ ":4: error: assertion \"".toList
        ++ expr ++ "\" failed in function \"".toList ++ assert_func ++ "\".\n".toList
        ++ "(A)bort, (B)reak, (C)ontinue: ".toList := by
  have h2 : format "(A)bort, (B)reak, (C)ontinue: ".toList [] =
      "(A)bort, (B)reak, (C)ontinue: ".toList := by
    have := format_lits "(A)bort, (B)reak, (C)ontinue: ".toList (by decide) [] []
    rw [List.append_nil, format_nil, List.append_nil] at this
    exact this
  unfold emitted
  rw [h2, diagnostic_format_split, format_str, format_lits _ (by decide), format_uint,
    format_lits _ (by decide), format_str, format_lits _ (by decide), format_str,
    format_lits _ (by decide), format_nil]
  simp only [List.append_assoc, List.append_nil]

theorem tri_cast (n : Nat) : ((tri n : Nat) : Int) = (n : Int) * ((n : Int) - 1) / 2 := by
  cases n with
  | zero => rfl
  | succ m =>
    unfold tri
    rw [Nat.add_sub_cancel]
    push_cast
    congr 1
    ring

/-- The loop ends within its budget for every bound an `int` can hold. -/
theorem arithprog_loop_of_int (to_ : Int) (h1 : INT_MIN ≤ to_) (h2 : to_ ≤ INT_MAX) :
    arithprog_loop to_ loopFuel loopInit = some (loopStateAt (to_ % 4294967296).toNat) := by
  unfold INT_MIN at h1
  unfold INT_MAX at h2
  apply arithprog_loop_closed
  · omega
  · unfold wrap32
    omega

theorem arithprog_loop_of_nonneg (to_ : Int) (h0 : 0 ≤ to_) (h2 : to_ ≤ INT_MAX) :
    arithprog_loop to_ loopFuel loopInit = some (loopStateAt to_.toNat) := by
  unfold INT_MAX at h2
  apply arithprog_loop_closed
  · omega
  · unfold wrap32
    omega

theorem loopStateAt_of_le (n : Nat) (h : n ≤ 65536) :
    loopStateAt n = { i := (n : Int), sum := (n : Int) * ((n : Int) - 1) / 2, iters := n,
                      overflow := false } := by
  have h1 : tri n ≤ 2147450880 := tri_65536 ▸ tri_mono h
  unfold loopStateAt
  rw [wrap32_natCast_of_le n (by omega), wrap32_natCast_of_le (tri n) (by omega), tri_cast]
  have h3 : decide (65537 ≤ n) = false := by simp; omega
  rw [h3]

theorem loopStateAt_65537 :
    loopStateAt 65537 = { i := 65537, sum := -2147450880, iters := 65537, overflow := true } := by
  have h : tri 65537 = 2147516416 := by norm_num [tri]
  unfold loopStateAt
  rw [h]
  decide

theorem loopStateAt_neg4 :
    loopStateAt 4294967292 =
      { i := -4, sum := -2147483638, iters := 4294967292, overflow := true } := by
  have h : tri 4294967292 = 9223372017527422986 := by norm_num [tri]
  unfold loopStateAt
  rw [h]
  decide

/-- For a bound that is not negative, `arithprog` passes its check without
calling the interceptor, runs the loop and returns. -/
theorem arithprog_of_nonneg (env : Env) (file : CString) (to_ : Int) (w : World)
    (h0 : 0 ≤ to_) (h2 : to_ ≤ INT_MAX) :
    arithprog env file to_ w =
      Outcome.returned (loopStateAt to_.toNat).sum
        { w with overflow := w.overflow || (loopStateAt to_.toNat).overflow } := by
  have hl := arithprog_loop_of_nonneg to_ h0 h2
  have hd : decide (to_ ≥ 0) = true := by simp [h0]
  unfold arithprog assert
  rw [hd]
  simp only [if_true, Outcome.bind]
  rw [show ({ i := 0, sum := 0, iters := 0, overflow := false } : LoopState) = loopInit from rfl, hl]

/-- For a negative bound, `arithprog` calls the interceptor and, when that
returns, runs the loop from the world the interceptor left. -/
theorem arithprog_of_neg (env : Env) (file : CString) (to_ : Int) (w : World)
    (hneg : to_ < 0) (h1 : INT_MIN ≤ to_) :
    arithprog env file to_ w =
      (custom_assert_func env arithprog_expr file 85 "arithprog".toList w).bind fun _ w1 =>
        Outcome.returned (loopStateAt (to_ % 4294967296).toNat).sum
          { w1 with overflow := w1.overflow || (loopStateAt (to_ % 4294967296).toNat).overflow } := by
  have hl := arithprog_loop_of_int to_ h1 (by unfold INT_MAX; omega)
  have hd : decide (to_ ≥ 0) = false := by simp [hneg]
  unfold arithprog assert
  rw [hd]
  simp only [Bool.false_eq_true, if_false]
  rw [show ({ i := 0, sum := 0, iters := 0, overflow := false } : LoopState) = loopInit from rfl, hl]

theorem emitted_ends_with_prompt (expr filename : CString) (line : Nat)
    (assert_func : CString) :
    ∃ diagnostic : CString,
      emitted expr filename line assert_func =
        diagnostic ++ "(A)bort, (B)reak, (C)ontinue: ".toList :=
  ⟨_, emitted_eq expr filename line assert_func⟩

/-- The interceptor on an input that starts with a byte other than `A`, `a`,
`B` and `b`. -/
theorem custom_assert_func_cons_other (env : Env) (expr filename : CString) (line : Nat)
    (assert_func : CString) (w : World) (c : Byte) (rest : List Byte)
    (h : c.val ≠ 'A'.toNat ∧ c.val ≠ 'a'.toNat ∧ c.val ≠ 'B'.toNat ∧ c.val ≠ 'b'.toNat) :
    custom_assert_func env expr filename line assert_func { w with inp := c :: rest } =
      Outcome.returned ()
        { out := w.out ++ emitted expr filename line assert_func
          inp := rest, traps := w.traps, overflow := w.overflow } := by
  have hA : ¬ toupper (c.val : Int) = ('A'.toNat : Int) := fun e =>
    ((toupper_eq_A_iff c).mp e).elim h.1 h.2.1
  have hB : ¬ toupper (c.val : Int) = ('B'.toNat : Int) := fun e =>
    ((toupper_eq_B_iff c).mp e).elim h.2.2.1 h.2.2.2
  rw [custom_assert_func_cons, if_neg hA, if_neg hB]; rfl

/-! ## The interceptor: results -/

/-- Claim C1. On an input that starts with the byte `c`, `custom_assert_func`
ends the process by `abort()` exactly when `c` is `A` or `a`. On that path the
outcome is the abort and not a return (code sequenced after the call does not
run), the byte has been read, and standard output holds what was there before
followed by the text of the call, whose last part is the prompt. -/
theorem custom_assert_func_abort_iff (env : Env) (expr filename : CString) (line : Nat)
    (assert_func : CString) (w : World) (c : Byte) (rest : List Byte) :
    ((custom_assert_func env expr filename line assert_func
          { w with inp := c :: rest }).isAborted = true
        ↔ (c.val = 'A'.toNat ∨ c.val = 'a'.toNat)) ∧
    ((c.val = 'A'.toNat ∨ c.val = 'a'.toNat) →
      custom_assert_func env expr filename line assert_func { w with inp := c :: rest } =
          Outcome.aborted
            { out := w.out ++ emitted expr filename line assert_func
              inp := rest, traps := w.traps, overflow := w.overflow } ∧
        (∀ (β : Type) (k : Unit → World → Outcome β),
          ((custom_assert_func env expr filename line assert_func
              { w with inp := c :: rest }).bind k).isAborted = true) ∧
        ∃ diagnostic : CString,
          emitted expr filename line assert_func =
            diagnostic ++ "(A)bort, (B)reak, (C)ontinue: ".toList) := by
  rw [custom_assert_func_cons]
  by_cases hA : toupper (c.val : Int) = ('A'.toNat : Int)
  · have hc := (toupper_eq_A_iff c).mp hA
    rw [if_pos hA]
    refine ⟨⟨fun _ => hc, fun _ => rfl⟩, fun _ => ⟨rfl, fun _ _ => rfl, ?_⟩⟩
    exact emitted_ends_with_prompt expr filename line assert_func
  · have hc : ¬ (c.val = 'A'.toNat ∨ c.val = 'a'.toNat) := fun h => hA ((toupper_eq_A_iff c).mpr h)
    rw [if_neg hA]
    refine ⟨⟨fun h => ?_, fun h => absurd h hc⟩, fun h => absurd h hc⟩
    exfalso
    unfold raise_SIGTRAP at h
    split at h
    · split at h <;> simp [Outcome.isAborted] at h
    · simp [Outcome.isAborted] at h

/-- The abort path of C1 at the input `A`. -/
theorem custom_assert_func_abort_iff_witness :
    custom_assert_func ⟨true⟩ "x > 0".toList "f.c".toList 85 "g".toList
        { World.initial [] with inp := [65, 10] } =
      Outcome.aborted
        { out := [] ++ emitted "x > 0".toList "f.c".toList 85 "g".toList
          inp := [10], traps := 0, overflow := false } :=
  ((custom_assert_func_abort_iff ⟨true⟩ "x > 0".toList "f.c".toList 85 "g".toList
    (World.initial []) 65 [10]).2 (Or.inl (by decide))).1

/-- Claim C2. On an input that starts with a byte `c` other than `A`, `a`, `B`
and `b`, `custom_assert_func` returns to its caller: it does not abort, it
raises no trap, and whatever the caller sequences after the failed check runs
next, in the world the interceptor left. -/
theorem custom_assert_func_returns_of_other (env : Env) (expr filename : CString) (line : Nat)
    (assert_func : CString) (w : World) (c : Byte) (rest : List Byte)
    (h : c.val ≠ 'A'.toNat ∧ c.val ≠ 'a'.toNat ∧ c.val ≠ 'B'.toNat ∧ c.val ≠ 'b'.toNat) :
    custom_assert_func env expr filename line assert_func { w with inp := c :: rest } =
        Outcome.returned ()
          { out := w.out ++ emitted expr filename line assert_func
            inp := rest, traps := w.traps, overflow := w.overflow } ∧
      ∀ (β : Type) (k : Unit → World → Outcome β),
        (assert env false expr filename line assert_func { w with inp := c :: rest }).bind k =
          k () { out := w.out ++ emitted expr filename line assert_func
                 inp := rest, traps := w.traps, overflow := w.overflow } := by
  have hr := custom_assert_func_cons_other env expr filename line assert_func w c rest h
  refine ⟨hr, fun β k => ?_⟩
  unfold assert
  simp only [Bool.false_eq_true, if_false]
  rw [hr]; rfl

/-- The return path of C2 at the input `C`. -/
theorem custom_assert_func_returns_of_other_witness :
    custom_assert_func ⟨false⟩ "x > 0".toList "f.c".toList 85 "g".toList
        { World.initial [] with inp := [67, 10] } =
      Outcome.returned ()
        { out := [] ++ emitted "x > 0".toList "f.c".toList 85 "g".toList
          inp := [10], traps := 0, overflow := false } :=
  (custom_assert_func_returns_of_other ⟨false⟩ "x > 0".toList "f.c".toList 85 "g".toList
    (World.initial []) 67 [10] (by decide)).1

/-- Claim C3. On an input that starts with the byte `c`, `custom_assert_func`
raises `SIGTRAP` exactly when `c` is `B` or `b` (the count of raised traps goes
up by one then, and is unchanged otherwise). On that path the call ends as
`raise(SIGTRAP)` ends, which is not by `abort()`. -/
theorem custom_assert_func_trap_iff (env : Env) (expr filename : CString) (line : Nat)
    (assert_func : CString) (w : World) (c : Byte) (rest : List Byte) :
    ((custom_assert_func env expr filename line assert_func
          { w with inp := c :: rest }).world.traps = w.traps + 1
        ↔ (c.val = 'B'.toNat ∨ c.val = 'b'.toNat)) ∧
    (¬ (c.val = 'B'.toNat ∨ c.val = 'b'.toNat) →
      (custom_assert_func env expr filename line assert_func
          { w with inp := c :: rest }).world.traps = w.traps) ∧
    ((c.val = 'B'.toNat ∨ c.val = 'b'.toNat) →
      custom_assert_func env expr filename line assert_func { w with inp := c :: rest } =
          raise_SIGTRAP env
            { out := w.out ++ emitted expr filename line assert_func
              inp := rest, traps := w.traps, overflow := w.overflow } ∧
        (custom_assert_func env expr filename line assert_func
          { w with inp := c :: rest }).isAborted = false) := by
  have hAB : 'A'.toNat ≠ 'B'.toNat ∧ 'a'.toNat ≠ 'B'.toNat ∧ 'A'.toNat ≠ 'b'.toNat ∧
      'a'.toNat ≠ 'b'.toNat := by decide
  rw [custom_assert_func_cons]
  by_cases hA : toupper (c.val : Int) = ('A'.toNat : Int)
  · have hc := (toupper_eq_A_iff c).mp hA
    have hnb : ¬ (c.val = 'B'.toNat ∨ c.val = 'b'.toNat) := by
      rcases hc with hc | hc <;> rw [hc] <;> intro hb <;> rcases hb with hb | hb
      · exact hAB.1 hb
      · exact hAB.2.2.1 hb
      · exact hAB.2.1 hb
      · exact hAB.2.2.2 hb
    rw [if_pos hA]
    refine ⟨⟨fun h => ?_, fun h => absurd h hnb⟩, fun _ => rfl, fun h => absurd h hnb⟩
    exfalso
    simp [Outcome.world, afterPrompt] at h
  · rw [if_neg hA]
    by_cases hB : toupper (c.val : Int) = ('B'.toNat : Int)
    · have hc := (toupper_eq_B_iff c).mp hB
      rw [if_pos hB]
      refine ⟨⟨fun _ => hc, fun _ => ?_⟩, fun h => absurd hc h, fun _ => ⟨rfl, ?_⟩⟩
      · unfold raise_SIGTRAP; split <;> rfl
      · unfold raise_SIGTRAP; split <;> rfl
    · have hnb : ¬ (c.val = 'B'.toNat ∨ c.val = 'b'.toNat) := fun h =>
        hB ((toupper_eq_B_iff c).mpr h)
      rw [if_neg hB]
      refine ⟨⟨fun h => ?_, fun h => absurd h hnb⟩, fun _ => rfl, fun h => absurd h hnb⟩
      exfalso
      simp [Outcome.world, afterPrompt] at h

/-- The trap path of C3 at the input `b`, with no debugger attached. -/
theorem custom_assert_func_trap_iff_witness :
    custom_assert_func ⟨false⟩ "x > 0".toList "f.c".toList 85 "g".toList
        { World.initial [] with inp := [98, 10] } =
      raise_SIGTRAP ⟨false⟩
        { out := [] ++ emitted "x > 0".toList "f.c".toList 85 "g".toList
          inp := [10], traps := 0, overflow := false } :=
  ((custom_assert_func_trap_iff ⟨false⟩ "x > 0".toList "f.c".toList 85 "g".toList
    (World.initial []) 98 [10]).2.2 (Or.inr (by decide))).1

/-- Claim C8, counterexample. At the end of standard input `getchar` yields
`EOF` and consumes nothing: the unread input after the call is the unread
input before it, so the call has not taken one character off it. -/
theorem custom_assert_func_eof_consumes_nothing :
    (custom_assert_func ⟨true⟩ "x > 0".toList "f.c".toList 85 "g".toList
        (World.initial [])).world.inp = (World.initial []).inp ∧
      ¬ ∃ c : Byte, (World.initial []).inp =
        c :: (custom_assert_func ⟨true⟩ "x > 0".toList "f.c".toList 85 "g".toList
          (World.initial [])).world.inp := by
  have h : (custom_assert_func ⟨true⟩ "x > 0".toList "f.c".toList 85 "g".toList
      (World.initial [])).world.inp = [] := by
    have := custom_assert_func_nil ⟨true⟩ "x > 0".toList "f.c".toList 85 "g".toList
      (World.initial [])
    simp only [World.initial] at this ⊢
    rw [this]; rfl
  refine ⟨h, ?_⟩
  rintro ⟨c, hc⟩
  rw [h] at hc
  exact absurd hc (by simp [World.initial])

/-- Claim C8, amended. When standard input holds at least one unread byte, one
call of `custom_assert_func` consumes exactly that byte and leaves the rest
unread, whichever of the three actions follows. At the end of input it consumes
nothing and returns. -/
theorem custom_assert_func_consumes_one (env : Env) (expr filename : CString) (line : Nat)
    (assert_func : CString) (w : World) (c : Byte) (rest : List Byte) :
    (custom_assert_func env expr filename line assert_func
        { w with inp := c :: rest }).world.inp = rest ∧
      (custom_assert_func env expr filename line assert_func
        { w with inp := [] }).world.inp = [] ∧
      (custom_assert_func env expr filename line assert_func
        { w with inp := [] }).isReturned = true := by
  refine ⟨?_, ?_, ?_⟩
  · rw [custom_assert_func_cons]
    unfold raise_SIGTRAP
    split
    · rfl
    · split
      · split <;> rfl
      · rfl
  · rw [custom_assert_func_nil]; rfl
  · rw [custom_assert_func_nil]; rfl

/-- Claim C9. When a call of `custom_assert_func` on an input that starts with
`c`, `c` returns, a second call with the same context (which then reads the
second `c`) returns too and appends to standard output the same text as the
first: the text `emitted` of the four context values. Every call, in every
world and surroundings, appends that text and nothing else. -/
theorem custom_assert_func_output_repeatable (env : Env) (expr filename : CString)
    (line : Nat) (assert_func : CString) (w : World) (c : Byte) (rest : List Byte)
    (w1 : World)
    (h : custom_assert_func env expr filename line assert_func
      { w with inp := c :: c :: rest } = Outcome.returned () w1) :
    w1.out = w.out ++ emitted expr filename line assert_func ∧
      (custom_assert_func env expr filename line assert_func w1).isReturned = true ∧
      (custom_assert_func env expr filename line assert_func w1).world.out =
        w1.out ++ emitted expr filename line assert_func ∧
      ∀ (env2 : Env) (w2 : World),
        (custom_assert_func env2 expr filename line assert_func w2).world.out =
          w2.out ++ emitted expr filename line assert_func := by
  have hout := custom_assert_func_out env expr filename line assert_func
    { w with inp := c :: c :: rest }
  rw [h] at hout
  refine ⟨hout, ?_, custom_assert_func_out env expr filename line assert_func w1,
    fun env2 w2 => custom_assert_func_out env2 expr filename line assert_func w2⟩
  rw [custom_assert_func_cons] at h
  by_cases hA : toupper (c.val : Int) = ('A'.toNat : Int)
  · rw [if_pos hA] at h
    exact absurd h (by simp)
  · rw [if_neg hA] at h
    by_cases hB : toupper (c.val : Int) = ('B'.toNat : Int)
    · rw [if_pos hB] at h
      unfold raise_SIGTRAP at h
      by_cases hr : env.trapResumes = true
      · simp only [hr, if_true] at h
        injection h with _ hw
        subst hw
        have h2 := custom_assert_func_cons env expr filename line assert_func
          { out := w.out ++ emitted expr filename line assert_func, inp := c :: rest,
            traps := w.traps + 1, overflow := w.overflow } c rest
        simp only [afterPrompt] at h2 ⊢
        rw [h2, if_neg hA, if_pos hB]
        unfold raise_SIGTRAP
        simp only [hr, if_true]
        rfl
      · simp only [hr] at h
        exact absurd h (by simp)
    · rw [if_neg hB] at h
      injection h with _ hw
      subst hw
      have h2 := custom_assert_func_cons env expr filename line assert_func
        { out := w.out ++ emitted expr filename line assert_func, inp := c :: rest,
          traps := w.traps, overflow := w.overflow } c rest
      simp only [afterPrompt] at h2 ⊢
      rw [h2, if_neg hA, if_neg hB]
      rfl

/-- The two calls of C9 on the input `C`, `C`. -/
theorem custom_assert_func_output_repeatable_witness :
    (custom_assert_func ⟨true⟩ "x > 0".toList "f.c".toList 85 "g".toList
        { out := [] ++ emitted "x > 0".toList "f.c".toList 85 "g".toList
          inp := [67], traps := 0, overflow := false }).world.out =
      ([] ++ emitted "x > 0".toList "f.c".toList 85 "g".toList)
        ++ emitted "x > 0".toList "f.c".toList 85 "g".toList :=
  (custom_assert_func_output_repeatable ⟨true⟩ "x > 0".toList "f.c".toList 85 "g".toList
    (World.initial []) 67 []
    { out := [] ++ emitted "x > 0".toList "f.c".toList 85 "g".toList
      inp := [67], traps := 0, overflow := false }
    (custom_assert_func_cons_other ⟨true⟩ "x > 0".toList "f.c".toList 85 "g".toList
      (World.initial []) 67 [67] (by decide))).2.2.1

/-- The conversion `%d` reads the `unsigned int` parameter `line` back as an
`int`: a value above `INT_MAX`, which no `__LINE__` takes, is shown as a
negative number, `4294967295` as `-1`. -/
theorem custom_assert_func_line_above_INT_MAX :
    (custom_assert_func ⟨true⟩ "x > 0".toList "f.c".toList 4294967295 "g".toList
        (World.initial [67])).world.out =
      ("f.c:-1:4: error: assertion \"x > 0\" failed in function \"g\".\n"
        ++ "(A)bort, (B)reak, (C)ontinue: ").toList := by
  rw [custom_assert_func_out, emitted_eq]
  decide

theorem world_overflow_or_false (w : World) :
    ({ w with overflow := w.overflow || false } : World) = w := by
  cases w; simp

/-- Up to the bound `65536` nothing overflows and `arithprog` returns the
closed form of the sum, in the world it was called in. -/
theorem arithprog_of_le (env : Env) (file : CString) (to_ : Int) (w : World)
    (h0 : 0 ≤ to_) (h : to_ ≤ 65536) :
    arithprog env file to_ w = Outcome.returned (to_ * (to_ - 1) / 2) w := by
  rw [arithprog_of_nonneg env file to_ w h0 (by unfold INT_MAX; omega),
    loopStateAt_of_le to_.toNat (by omega)]
  simp only [Int.toNat_of_nonneg h0, world_overflow_or_false]

/-- The interceptor in a world whose input starts with a byte other than `A`,
`a`, `B` and `b`. -/
theorem custom_assert_func_of_other (env : Env) (expr filename : CString) (line : Nat)
    (assert_func : CString) (w : World) (c : Byte) (rest : List Byte)
    (hin : w.inp = c :: rest)
    (h : c.val ≠ 'A'.toNat ∧ c.val ≠ 'a'.toNat ∧ c.val ≠ 'B'.toNat ∧ c.val ≠ 'b'.toNat) :
    custom_assert_func env expr filename line assert_func w =
      Outcome.returned ()
        { out := w.out ++ emitted expr filename line assert_func
          inp := rest, traps := w.traps, overflow := w.overflow } := by
  have := custom_assert_func_cons_other env expr filename line assert_func w c rest h
  rw [← hin] at this
  exact this

/-- With the bound `-4` and a choice other than abort and break, the loop of
`arithprog` runs after the interceptor has returned. -/
theorem arithprog_neg4_of_other (env : Env) (file : CString) (w : World) (c : Byte)
    (rest : List Byte) (hin : w.inp = c :: rest)
    (h : c.val ≠ 'A'.toNat ∧ c.val ≠ 'a'.toNat ∧ c.val ≠ 'B'.toNat ∧ c.val ≠ 'b'.toNat) :
    arithprog env file (-4) w =
      Outcome.returned (-2147483638)
        { out := w.out ++ emitted arithprog_expr file 85 "arithprog".toList
          inp := rest, traps := w.traps, overflow := true } := by
  rw [arithprog_of_neg env file (-4) w (by decide) (by decide),
    custom_assert_func_of_other env arithprog_expr file 85 "arithprog".toList w c rest hin h]
  have hN : ((-4 : Int) % 4294967296).toNat = 4294967292 := by decide
  simp only [Outcome.bind, hN, loopStateAt_neg4, Bool.or_true]

theorem format_arithprog_10 (r : Int) :
    format "arithprog(10) = %d\n".toList [Arg.int r] =
      "arithprog(10) = ".toList ++ decimal r ++ "\n".toList := by
  have hs : "arithprog(10) = %d\n".toList =
      "arithprog(10) = ".toList ++ '%' :: 'd' :: ("\n".toList ++ []) := by decide
  rw [hs, format_lits _ (by decide), format_int, format_lits _ (by decide), format_nil]
  simp only [List.append_assoc, List.append_nil]

theorem format_arithprog_neg4 (r : Int) :
    format "arithprog(-4) = %d\n".toList [Arg.int r] =
      "arithprog(-4) = ".toList ++ decimal r ++ "\n".toList := by
  have hs : "arithprog(-4) = %d\n".toList =
      "arithprog(-4) = ".toList ++ '%' :: 'd' :: ("\n".toList ++ []) := by decide
  rw [hs, format_lits _ (by decide), format_int, format_lits _ (by decide), format_nil]
  simp only [List.append_assoc, List.append_nil]

/-- The whole program when the choice at the prompt is other than abort and
break. -/
theorem main_of_other (env : Env) (file : CString) (w : World) (c : Byte)
    (rest : List Byte) (hin : w.inp = c :: rest)
    (h : c.val ≠ 'A'.toNat ∧ c.val ≠ 'a'.toNat ∧ c.val ≠ 'B'.toNat ∧ c.val ≠ 'b'.toNat) :
    main env file w =
      Outcome.returned EXIT_SUCCESS
        { out := w.out ++ "arithprog(10) = 45\n".toList
            ++ emitted arithprog_expr file 85 "arithprog".toList
            ++ "arithprog(-4) = -2147483638\n".toList
          inp := rest, traps := w.traps, overflow := true } := by
  unfold main
  rw [arithprog_of_le env file 10 w (by decide) (by decide)]
  simp only [Outcome.bind, fprintf_stdout]
  rw [arithprog_neg4_of_other env file
    { out := w.out ++ format "arithprog(10) = %d\n".toList [Arg.int (10 * (10 - 1) / 2)]
      inp := w.inp, traps := w.traps, overflow := w.overflow } c rest hin h]
  simp only [format_arithprog_10, format_arithprog_neg4]
  have h45 : "arithprog(10) = ".toList ++ decimal (10 * (10 - 1) / 2) ++ "\n".toList =
      "arithprog(10) = 45\n".toList := by decide
  have hneg : "arithprog(-4) = ".toList ++ decimal (-2147483638) ++ "\n".toList =
      "arithprog(-4) = -2147483638\n".toList := by decide
  rw [h45, hneg]

theorem emitted_ne_nil (expr filename : CString) (line : Nat) (assert_func : CString) :
    emitted expr filename line assert_func ≠ [] := by
  rw [emitted_eq]
  intro h
  have h2 := (List.append_eq_nil.mp h).2
  exact absurd h2 (by decide)

theorem arithprog_65537 (env : Env) (file : CString) (w : World) :
    arithprog env file 65537 w =
      Outcome.returned (-2147450880) { w with overflow := true } := by
  rw [arithprog_of_nonneg env file 65537 w (by decide) (by decide)]
  have hN : ((65537 : Int)).toNat = 65537 := by decide
  simp only [hN, loopStateAt_65537, Bool.or_true]

/-! ## `arithprog` and `main`: results -/

/-- Claim C5, counterexample. For the bound `65537`, which is not negative,
`arithprog` does not return `65537 * 65536 / 2 = 2147516416`: the sum no longer
fits an `int`, and with wraparound the value returned is `-2147450880`. -/
theorem arithprog_65537_not_sum :
    arithprog ⟨true⟩ "override_assert.c".toList 65537 (World.initial []) =
        Outcome.returned (-2147450880)
          { out := [], inp := [], traps := 0, overflow := true } ∧
      ¬ ∃ w1 : World,
        arithprog ⟨true⟩ "override_assert.c".toList 65537 (World.initial []) =
          Outcome.returned (65537 * (65537 - 1) / 2) w1 := by
  rw [arithprog_65537]
  refine ⟨rfl, ?_⟩
  rintro ⟨w1, h⟩
  injection h with hv _
  exact absurd hv (by decide)

/-- Claim C5, amended. For every bound `to` with `0 <= to <= 65536`,
`arithprog(to)` returns the sum of the integers from `0` up to but not
including `to`, which is `to * (to - 1) / 2`, and leaves the world as it was;
in particular `arithprog(10) = 45`. -/
theorem arithprog_eq_sum_of_le (env : Env) (file : CString) (to_ : Int) (w : World)
    (h0 : 0 ≤ to_) (h : to_ ≤ 65536) :
    arithprog env file to_ w = Outcome.returned (to_ * (to_ - 1) / 2) w ∧
      to_ * (to_ - 1) / 2 = ((∑ i in Finset.range to_.toNat, i : Nat) : Int) ∧
      arithprog env file 10 w = Outcome.returned 45 w := by
  refine ⟨arithprog_of_le env file to_ w h0 h, ?_,
    arithprog_of_le env file 10 w (by decide) (by decide)⟩
  rw [← tri_eq_sum, tri_cast, Int.toNat_of_nonneg h0]

/-- The sum of C5 at the bound `10`. -/
theorem arithprog_eq_sum_of_le_witness :
    arithprog ⟨true⟩ "override_assert.c".toList 10 (World.initial []) =
      Outcome.returned 45 (World.initial []) :=
  (arithprog_eq_sum_of_le ⟨true⟩ "override_assert.c".toList 10 (World.initial [])
    (by decide) (by decide)).1

set_option maxRecDepth 10000 in
/-- Claim C6, counterexample. With the bound `-4` and the choice `C`, the
condition `i != to` holds at `i = 0`, so the loop body runs: with wraparound it
runs `4294967292` times (an `int` overflows on the way) and `arithprog`
returns `-2147483638`, not `0`; the program prints
`arithprog(-4) = -2147483638`. -/
theorem arithprog_neg4_continue_not_zero :
    (arithprog_loop (-4) loopFuel loopInit).map LoopState.iters = some 4294967292 ∧
      arithprog ⟨true⟩ "override_assert.c".toList (-4) (World.initial [67, 10]) =
        Outcome.returned (-2147483638)
          { out := ("override_assert.c:85:4: error: assertion \"to >= 0 && \"Only positive "
              ++ "numbers are allowed\"\" failed in function \"arithprog\".\n"
              ++ "(A)bort, (B)reak, (C)ontinue: ").toList
            inp := [10], traps := 0, overflow := true } ∧
      (¬ ∃ w1 : World,
        arithprog ⟨true⟩ "override_assert.c".toList (-4) (World.initial [67, 10]) =
          Outcome.returned 0 w1) ∧
      (main ⟨true⟩ "override_assert.c".toList (World.initial [67, 10])).world.out =
        ("arithprog(10) = 45\n"
          ++ "override_assert.c:85:4: error: assertion \"to >= 0 && \"Only positive "
          ++ "numbers are allowed\"\" failed in function \"arithprog\".\n"
          ++ "(A)bort, (B)reak, (C)ontinue: arithprog(-4) = -2147483638\n").toList := by
  have hl : arithprog_loop (-4) loopFuel loopInit = some (loopStateAt 4294967292) :=
    arithprog_loop_of_int (-4) (by decide) (by decide)
  have ha := arithprog_neg4_of_other ⟨true⟩ "override_assert.c".toList (World.initial [67, 10])
    67 [10] rfl (by decide)
  have hm := main_of_other ⟨true⟩ "override_assert.c".toList (World.initial [67, 10])
    67 [10] rfl (by decide)
  have he : emitted arithprog_expr "override_assert.c".toList 85 "arithprog".toList =
      ("override_assert.c:85:4: error: assertion \"to >= 0 && \"Only positive "
        ++ "numbers are allowed\"\" failed in function \"arithprog\".\n"
        ++ "(A)bort, (B)reak, (C)ontinue: ").toList := by
    rw [emitted_eq]
    decide
  refine ⟨?_, ?_, ?_, ?_⟩
  · rw [hl, loopStateAt_neg4]; rfl
  · rw [ha, he]; rfl
  · rintro ⟨w1, h⟩
    rw [ha] at h
    injection h with hv _
    exact absurd hv (by decide)
  · rw [hm, he]
    decide

/-- Claim C6, amended. When `arithprog` is called with the bound `-4` and the
interceptor reads a byte other than `A`, `a`, `B` and `b`, the loop body does
run: with 32-bit wraparound it runs `4294967292` times, an `int` overflow
happens on the way, and `arithprog` returns `-2147483638`, so the program
prints `arithprog(-4) = -2147483638`. -/
theorem arithprog_neg4_continue (env : Env) (file : CString) (w : World) (c : Byte)
    (rest : List Byte) (hin : w.inp = c :: rest)
    (h : c.val ≠ 'A'.toNat ∧ c.val ≠ 'a'.toNat ∧ c.val ≠ 'B'.toNat ∧ c.val ≠ 'b'.toNat) :
    arithprog_loop (-4) loopFuel loopInit =
        some { i := -4, sum := -2147483638, iters := 4294967292, overflow := true } ∧
      arithprog env file (-4) w =
        Outcome.returned (-2147483638)
          { out := w.out ++ emitted arithprog_expr file 85 "arithprog".toList
            inp := rest, traps := w.traps, overflow := true } ∧
      main env file w =
        Outcome.returned EXIT_SUCCESS
          { out := w.out ++ "arithprog(10) = 45\n".toList
              ++ emitted arithprog_expr file 85 "arithprog".toList
              ++ "arithprog(-4) = -2147483638\n".toList
            inp := rest, traps := w.traps, overflow := true } := by
  refine ⟨?_, arithprog_neg4_of_other env file w c rest hin h,
    main_of_other env file w c rest hin h⟩
  rw [arithprog_loop_of_int (-4) (by decide) (by decide)]
  exact congrArg some loopStateAt_neg4

/-- The run of C6 on the input `C`. -/
theorem arithprog_neg4_continue_witness :
    arithprog ⟨false⟩ "override_assert.c".toList (-4) (World.initial [67]) =
      Outcome.returned (-2147483638)
        { out := (World.initial [67]).out
            ++ emitted arithprog_expr "override_assert.c".toList 85 "arithprog".toList
          inp := [], traps := (World.initial [67]).traps, overflow := true } :=
  (arithprog_neg4_continue ⟨false⟩ "override_assert.c".toList (World.initial [67]) 67 []
    rfl (by decide)).2.1

/-- Claim C7. For every bound `to >= 0` that an `int` holds, the check of
`arithprog` passes without a call of `custom_assert_func`: the macro yields
its no-op branch in the unchanged world, and `arithprog` returns with standard
output, standard input and the count of traps exactly as they were, so neither
an abort nor a trap has happened. A call of the interceptor would have
changed standard output. -/
theorem arithprog_nonneg_no_interceptor (env : Env) (file : CString) (to_ : Int)
    (w : World) (h0 : 0 ≤ to_) (h1 : to_ ≤ INT_MAX) :
    assert env (decide (to_ ≥ 0)) arithprog_expr file 85 "arithprog".toList w =
        Outcome.returned () w ∧
      (∃ (v : Int) (w1 : World),
        arithprog env file to_ w = Outcome.returned v w1 ∧
          w1.out = w.out ∧ w1.inp = w.inp ∧ w1.traps = w.traps) ∧
      (custom_assert_func env arithprog_expr file 85 "arithprog".toList w).world.out ≠ w.out := by
  refine ⟨?_, ⟨_, _, arithprog_of_nonneg env file to_ w h0 h1, rfl, rfl, rfl⟩, ?_⟩
  · have hd : decide (to_ ≥ 0) = true := by simp [h0]
    unfold assert
    rw [hd]
    rfl
  · rw [custom_assert_func_out]
    intro h
    exact emitted_ne_nil _ _ _ _ (List.append_right_eq_self.mp h)

/-- The passing check of C7 at the bound `10`, with `A` waiting on standard
input: nothing is read and nothing is written. -/
theorem arithprog_nonneg_no_interceptor_witness :
    ∃ (v : Int) (w1 : World),
      arithprog ⟨false⟩ "override_assert.c".toList 10 (World.initial [65]) =
          Outcome.returned v w1 ∧
        w1.out = (World.initial [65]).out ∧ w1.inp = (World.initial [65]).inp ∧
        w1.traps = (World.initial [65]).traps :=
  (arithprog_nonneg_no_interceptor ⟨false⟩ "override_assert.c".toList 10 (World.initial [65])
    (by decide) (by decide)).2.1

/-- Claim C10. For every bound `to` with `0 <= to <= 65536` the loop of
`arithprog` ends after exactly `to` executions of its body with no overflow:
no partial sum exceeds `INT_MAX = 2147483647`, and the final `sum` is the
exact sum `to * (to - 1) / 2`. For `to = 65537` the exact sum is `2147516416`,
above `INT_MAX`; the loop flags the overflow and its 32-bit result
`-2147450880` differs from `to * (to - 1) / 2`. -/
theorem arithprog_loop_exact_of_le (to_ : Int) (h0 : 0 ≤ to_) (h : to_ ≤ 65536) :
    (arithprog_loop to_ loopFuel loopInit =
        some { i := to_, sum := to_ * (to_ - 1) / 2, iters := to_.toNat, overflow := false } ∧
      (∀ k : Nat, k ≤ to_.toNat → ((∑ i in Finset.range k, i : Nat) : Int) ≤ INT_MAX) ∧
      to_ * (to_ - 1) / 2 = ((∑ i in Finset.range to_.toNat, i : Nat) : Int)) ∧
    ((65537 : Int) * (65537 - 1) / 2 = 2147516416 ∧
      INT_MAX < 2147516416 ∧
      arithprog_loop 65537 loopFuel loopInit =
        some { i := 65537, sum := -2147450880, iters := 65537, overflow := true } ∧
      (-2147450880 : Int) ≠ 65537 * (65537 - 1) / 2) := by
  refine ⟨⟨?_, ?_, ?_⟩, by decide, by decide, ?_, by decide⟩
  · rw [arithprog_loop_of_nonneg to_ h0 (by unfold INT_MAX; omega),
      loopStateAt_of_le to_.toNat (by omega)]
    simp only [Int.toNat_of_nonneg h0]
  · intro k hk
    have h1 : tri k ≤ 2147450880 := tri_65536 ▸ tri_mono (show k ≤ 65536 by omega)
    rw [← tri_eq_sum]
    unfold INT_MAX
    omega
  · rw [← tri_eq_sum, tri_cast, Int.toNat_of_nonneg h0]
  · rw [arithprog_loop_of_nonneg 65537 (by decide) (by decide)]
    exact congrArg some loopStateAt_65537

/-- The loop of C10 at the bound `10`: ten executions of the body, sum `45`. -/
theorem arithprog_loop_exact_of_le_witness :
    arithprog_loop 10 loopFuel loopInit =
      some { i := 10, sum := 10 * (10 - 1) / 2, iters := (10 : Int).toNat, overflow := false } :=
  (arithprog_loop_exact_of_le 10 (by decide) (by decide)).1.1

end OverrideAssert
